import Mathlib

/-!
# t_setlease.c: basic F_SETLEASE functionality test

A shallow embedding of `src/t_setlease.c`.  The program is sequential C code
whose behaviour is decided by what the operating system answers to each call,
so every system call takes its answer from an explicit environment record and
logs itself in a trace.  One `State` describes one process; `fork` answering
`child` continues the same function as the child process.
-/

namespace TSetlease

/-! ## Data model -/

/-- Access modes handed to open(2); the two macros of fcntl.h the table uses. -/
inductive OpenFlag
  | O_RDONLY
  | O_WRONLY
  deriving DecidableEq

/-- Lease commands of fcntl(F_SETLEASE); the three macros of fcntl.h the program uses. -/
inductive LeaseType
  | F_RDLCK
  | F_WRLCK
  | F_UNLCK
  deriving DecidableEq

/-- Signal numbers: the one the handler is subscribed to, and all the others. -/
inductive Signum
  | SIGIO
  | other (n : Nat)
  deriving DecidableEq

/-- Values of errno after a failed call: positive integers. -/
abbrev Errno := ℕ+

/-- The record `struct leasetest` (lines 24-29). -/
structure leasetest where
  openflags : OpenFlag
  leasetype : LeaseType
  conf_openflags : OpenFlag
  expect_signal : Bool
  deriving DecidableEq

/-- The table `testcase[]` (lines 31-36). -/
def testcase : List leasetest :=
  [ { openflags := .O_RDONLY, leasetype := .F_RDLCK, conf_openflags := .O_RDONLY, expect_signal := false },
    { openflags := .O_RDONLY, leasetype := .F_RDLCK, conf_openflags := .O_WRONLY, expect_signal := true },
    { openflags := .O_WRONLY, leasetype := .F_WRLCK, conf_openflags := .O_RDONLY, expect_signal := true },
    { openflags := .O_WRONLY, leasetype := .F_WRLCK, conf_openflags := .O_WRONLY, expect_signal := true } ]

/-- Lines the program writes to its standard streams. -/
inductive Line
  | usage
  | perror (tag : String) (errno : Int)
  | test_failure (t : leasetest)
  deriving DecidableEq

/-- What a process does that is visible from outside, in program order.
`enter` is not a system call: it records that `simple_lease_break` was called
on a table entry. -/
inductive Event
  | stdout (l : Line)
  | stderr (l : Line)
  | sigaction (sig : Signum) (ret : Int)
  | enter (t : leasetest)
  | sys_open (fname : String) (flags : OpenFlag) (creat : Bool) (ret : Int)
  | setlease (fd : Int) (arg : LeaseType) (ret : Int)
  | fork (ret : Int)
  | close (fd : Int)
  | waitpid (pid : Int) (nohang : Bool) (ret : Int)
  | usleep (usec : Nat)
  | exit (code : Int)
  deriving DecidableEq

/-- One process: the global `signalled`, errno, the descriptors the program
has opened and not closed, the children it has forked and not waited for, and
the trace of what it did. -/
structure State where
  signalled : Bool
  errno : Int
  fds : List Int
  children : List Int
  trace : List Event
  deriving DecidableEq

/-- The state of the process when `main` starts. -/
def State.init : State :=
  { signalled := false, errno := 0, fds := [], children := [], trace := [] }

/-- Appends one event to the trace. -/
def State.log (s : State) (e : Event) : State :=
  { s with trace := s.trace ++ [e] }

/-! ## Answers of the operating system -/

/-- Answer to open(2). -/
inductive OpenRes
  | fd (n : Nat)
  | error (e : Errno)
  deriving DecidableEq

/-- Answer to fcntl(fd, F_SETLEASE, type). -/
inductive LeaseRes
  | granted
  | rejected (e : Errno)
  deriving DecidableEq

/-- Answer to fork(2), as seen by the process the model follows. -/
inductive ForkRes
  | error (e : Errno)
  | child
  | parent (pid : ℕ+)
  deriving DecidableEq

/-- Answer to waitpid(pid, &status, WNOHANG). -/
inductive WaitRes
  | running
  | reaped (status : Int)
  | error (e : Errno)
  deriving DecidableEq

/-- Answer to the blocking waitpid(pid, &status, 0). -/
inductive BlockRes
  | reaped (status : Int)
  | error (e : Errno)
  deriving DecidableEq

/-- Answer to sigaction(2). -/
inductive SigactionRes
  | ok
  | error (e : Errno)
  deriving DecidableEq

/-- One trip through the head of the polling loop: the signals whose handler
ran since the flag was last read, and what the non-blocking wait answers if
the loop gets to call it. -/
structure Poll where
  signals : List Signum
  wait : WaitRes
  deriving DecidableEq

/-- Everything the environment decides during one call of
`simple_lease_break`.  `exited0` and `status0` are the indeterminate values
the locals `exited` and `status` hold before anything is stored in them.
`perror_errno` is what a call of perror does to errno: `none` when it leaves
errno alone, `some e` when it fails itself and leaves its own error `e`. -/
structure CaseEnv where
  exited0 : Int
  status0 : Int
  lease_open : OpenRes
  lease_set : LeaseRes
  fork : ForkRes
  conflict_open : OpenRes
  perror_errno : Option Errno
  polls : List Poll
  final_wait : BlockRes
  late_signals : List Signum

/-- The macros WIFEXITED and WEXITSTATUS of sys/wait.h, which the repository
does not define: taken as parameters. -/
structure WaitMacros where
  WIFEXITED : Int → Bool
  WEXITSTATUS : Int → Int

/-- The usual Linux definitions of the two macros. -/
def linuxWait : WaitMacros :=
  { WIFEXITED := fun st => st % 128 == 0
    WEXITSTATUS := fun st => (st / 256) % 256 }

/-! ## System calls -/

/-- Models open(2): on success the descriptor joins the open set.  `creat`
stands for the flag O_CREAT, which the program always pairs with mode 0644. -/
def sys_open (fname : String) (flags : OpenFlag) (creat : Bool) (r : OpenRes) (s : State) :
    Int × State :=
  match r with
  | .fd n => ((n : Int), { s with fds := (n : Int) :: s.fds }.log (.sys_open fname flags creat n))
  | .error e => (-1, { s with errno := (e : Nat) }.log (.sys_open fname flags creat (-1)))

/-- Models fcntl(fd, F_SETLEASE, arg) with its result used. -/
def sys_setlease (fd : Int) (arg : LeaseType) (r : LeaseRes) (s : State) : Int × State :=
  match r with
  | .granted => (0, s.log (.setlease fd arg 0))
  | .rejected e => (-1, { s with errno := (e : Nat) }.log (.setlease fd arg (-1)))

/-- Models fcntl(fd, F_SETLEASE, F_UNLCK) with its result thrown away. -/
def sys_unlease (fd : Int) (s : State) : State :=
  s.log (.setlease fd .F_UNLCK 0)

/-- Models close(2). -/
def sys_close (fd : Int) (s : State) : State :=
  { s with fds := s.fds.erase fd }.log (.close fd)

/-- Models fork(2): in the parent the child joins the set of live children. -/
def sys_fork (r : ForkRes) (s : State) : Int × State :=
  match r with
  | .error e => (-1, { s with errno := (e : Nat) }.log (.fork (-1)))
  | .child => (0, { s with children := [] }.log (.fork 0))
  | .parent pid => (((pid : Nat) : Int), { s with children := ((pid : Nat) : Int) :: s.children }.log
      (.fork ((pid : Nat) : Int)))

/-- Models waitpid(pid, &status, WNOHANG): returns the call's value and the
content of `status` after it. -/
def sys_waitpid_nohang (pid : Int) (r : WaitRes) (status : Int) (s : State) :
    Int × Int × State :=
  match r with
  | .running => (0, status, s.log (.waitpid pid true 0))
  | .reaped st => (pid, st, { s with children := s.children.erase pid }.log (.waitpid pid true pid))
  | .error e => (-1, status, { s with errno := (e : Nat) }.log (.waitpid pid true (-1)))

/-- Models waitpid(pid, &status, 0) with its value thrown away: returns the
content of `status` after it. -/
def sys_waitpid_block (pid : Int) (r : BlockRes) (status : Int) (s : State) : Int × State :=
  match r with
  | .reaped st => (st, { s with children := s.children.erase pid }.log (.waitpid pid false pid))
  | .error e => (status, { s with errno := (e : Nat) }.log (.waitpid pid false (-1)))

/-- Models usleep(3). -/
def sys_usleep (usec : Nat) (s : State) : State :=
  s.log (.usleep usec)

/-- Models sigaction(2). -/
def sys_sigaction (sig : Signum) (r : SigactionRes) (s : State) : Int × State :=
  match r with
  | .ok => (0, s.log (.sigaction sig 0))
  | .error e => (-1, { s with errno := (e : Nat) }.log (.sigaction sig (-1)))

/-- Models perror(3): one line on the diagnostic stream, made from the errno
the call finds.  The call can fail itself (the C library's does when the
diagnostic stream is a pipe or a file opened for writing only: it then leaves
EINVAL) and in that case the error it ran into is what errno holds
afterwards. -/
def perror (tag : String) (after : Option Errno) (s : State) : State :=
  let s1 := s.log (.stderr (.perror tag s.errno))
  match after with
  | none => s1
  | some e => { s1 with errno := (e : Nat) }

/-! ## The program -/

/-- The function `usage` (lines 38-41). -/
def usage (s : State) : State :=
  s.log (.stdout .usage)

/-- The signal handler `lease_break` (lines 43-47). -/
def lease_break (signum : Signum) (s : State) : State :=
  if signum = Signum.SIGIO then { s with signalled := true } else s

/-- Runs the handler once for each delivered signal, in order. -/
def deliver (sigs : List Signum) (s : State) : State :=
  sigs.foldl (fun st g => lease_break g st) s

/-- The function `setlease` (lines 50-66). -/
def setlease (fname : String) (openflags : OpenFlag) (leasetype : LeaseType) (env : CaseEnv)
    (s : State) : Int × State :=
  let r := sys_open fname openflags true env.lease_open s
  let fd := r.1
  if fd < 0 then
    let s1 := perror "open" env.perror_errno r.2
    (-s1.errno, s1)
  else
    let q := sys_setlease fd leasetype env.lease_set r.2
    if q.1 ≠ 0 then
      let s2 := perror "setlease" env.perror_errno q.2
      (-s2.errno, s2)
    else
      (fd, q.2)

/-- The function `open_conflict` (lines 68-79). -/
def open_conflict (fname : String) (openflags : OpenFlag) (env : CaseEnv) (s : State) :
    Int × State :=
  let o := sys_open fname openflags false env.conflict_open s
  let fd := o.1
  if fd < 0 then
    let s1 := perror "open" env.perror_errno o.2
    (-s1.errno, s1)
  else
    (0, sys_close fd o.2)

/-- The locals `exited` and `status` of `simple_lease_break` together with the
process state. -/
structure Locals where
  exited : Int
  status : Int
  st : State

/-- The polling loop of the parent (lines 102-108), one list element per trip
through the loop head.  The result is `none` when the listed observations end
before the loop is left. -/
def poll_loop (pid : Int) : List Poll → Locals → Option Locals
  | [], _ => none
  | p :: ps, l =>
    let s := deliver p.signals l.st
    if s.signalled then
      some { l with st := s }
    else
      let w := sys_waitpid_nohang pid p.wait l.status s
      if w.1 ≠ 0 then
        some { exited := w.1, status := w.2.1, st := w.2.2 }
      else
        poll_loop pid ps { exited := w.1, status := w.2.1, st := sys_usleep 1000 w.2.2 }

/-- How a call of `simple_lease_break` ends: it returns a value, or the
process exits inside it. -/
inductive Ctl
  | ret (v : Int)
  | exit (code : Int)
  deriving DecidableEq

/-- The child branch (lines 95-98). -/
def child_branch (fname : String) (test : leasetest) (fd : Int) (env : CaseEnv) (s : State) :
    Int × State :=
  let s1 := sys_close fd s
  let r := open_conflict fname test.conf_openflags env s1
  let code : Int := if r.1 ≠ 0 then 1 else 0
  (code, r.2.log (.exit code))

/-- The parent between the loop and the verdict (lines 110-115): release the
lease, close the descriptor, and wait for the child if `exited` is zero.
Returns the content of `status` afterwards. -/
def parent_wait (fd pid : Int) (env : CaseEnv) (l : Locals) : Int × State :=
  let s1 := sys_unlease fd l.st
  let s2 := sys_close fd s1
  if l.exited = 0 then
    sys_waitpid_block pid env.final_wait l.status s2
  else
    (l.status, s2)

/-- The verdict (lines 117-125) from the content of `status` and the value
read from `signalled`. -/
def verdict (W : WaitMacros) (test : leasetest) (status : Int) (signalled : Bool) : Int :=
  if !W.WIFEXITED status then
    1
  else if test.expect_signal != signalled then
    1
  else
    W.WEXITSTATUS status

/-- The function `simple_lease_break` (lines 81-126). -/
def simple_lease_break (W : WaitMacros) (fname : String) (test : leasetest) (env : CaseEnv)
    (s : State) : Option (Ctl × State) :=
  let s0 := { s with signalled := false }.log (.enter test)
  let r := setlease fname test.openflags test.leasetype env s0
  let fd := r.1
  if fd < 0 then
    some (.ret fd, r.2)
  else
    let f := sys_fork env.fork r.2
    let pid := f.1
    if pid < 0 then
      some (.ret (-f.2.errno), f.2)
    else if pid = 0 then
      let c := child_branch fname test fd env f.2
      some (.exit c.1, c.2)
    else
      match poll_loop pid env.polls { exited := env.exited0, status := env.status0, st := f.2 } with
      | none => none
      | some l =>
        let w := parent_wait fd pid env l
        let s3 := deliver env.late_signals w.2
        some (.ret (verdict W test w.1 s3.signalled), s3)

/-- Everything the environment decides during one run of the program. -/
structure Env where
  argc : Int
  fname : String
  sigaction : SigactionRes
  perror_errno : Option Errno
  cases : Nat → CaseEnv

/-- How the process ends: `main` returns a value, or exit is called with one. -/
inductive Outcome
  | returned (v : Int)
  | exited (v : Int)
  deriving DecidableEq

/-- The value `main` returns or passes to exit. -/
def Outcome.value : Outcome → Int
  | .returned v => v
  | .exited v => v

/-- The loop of `main` (lines 147-156) over the entries still to run; `i` is
the index of the first of them. -/
def run_tests (W : WaitMacros) (fname : String) (cases : Nat → CaseEnv) :
    List leasetest → Nat → State → Option (Outcome × State)
  | [], _, s => some (.returned 0, s)
  | t :: ts, i, s =>
    match simple_lease_break W fname t (cases i) s with
    | none => none
    | some (.exit code, s1) => some (.exited code, s1)
    | some (.ret ret, s1) =>
      if ret ≠ 0 then
        some (.exited 1, (s1.log (.stderr (.test_failure t))).log (.exit 1))
      else
        run_tests W fname cases ts (i + 1) s1

/-- The function `main` (lines 128-157). -/
def main (W : WaitMacros) (env : Env) : Option (Outcome × State) :=
  if env.argc < 2 then
    some (.returned 1, usage State.init)
  else
    let r := sys_sigaction Signum.SIGIO env.sigaction State.init
    if r.1 ≠ 0 then
      some (.returned (-1), perror "sigaction" env.perror_errno r.2)
    else
      run_tests W env.fname env.cases testcase 0 r.2

/-! ## Observations on a trace -/

/-- The table entries `simple_lease_break` was called on, in order. -/
def entered (tr : List Event) : List leasetest :=
  tr.filterMap fun e => match e with
    | .enter t => some t
    | _ => none

/-- The lines written to the diagnostic stream, in order. -/
def stderr_lines (tr : List Event) : List Line :=
  tr.filterMap fun e => match e with
    | .stderr l => some l
    | _ => none

/-- The table entries reported by a "Test failure" line, in order. -/
def failure_reports (tr : List Event) : List leasetest :=
  (stderr_lines tr).filterMap fun l => match l with
    | .test_failure t => some t
    | _ => none

/-- The number of calls of usleep in a trace. -/
def sleeps (tr : List Event) : Nat :=
  (tr.filter fun e => match e with
    | .usleep _ => true
    | _ => false).length

/-- The value `simple_lease_break` hands back for table entry `j`, if it
comes back at all.  The value does not depend on the state the call starts in
(`simple_lease_break_ctl_indep`), so it is computed from the initial one. -/
def case_result (W : WaitMacros) (env : Env) (j : Nat) : Option Ctl :=
  match testcase[j]? with
  | none => none
  | some t => (simple_lease_break W env.fname t (env.cases j) State.init).map Prod.fst

/-- A poll at which the loop goes round again: the handler did not see SIGIO
and the non-blocking wait answers that the child is still running. -/
def Poll.quiet (p : Poll) : Bool :=
  !p.signals.contains Signum.SIGIO && p.wait == .running

/-- A poll at which the non-blocking wait reports that the child has exited. -/
def Poll.child_exited (p : Poll) : Bool :=
  match p.wait with
  | .reaped _ => true
  | _ => false


/-! ## Notions used in the statements and proofs -/

/-- The errno a process holds after a call failed with `e` and perror
reported it. -/
def errno_left (e : Errno) (after : Option Errno) : Errno :=
  match after with
  | none => e
  | some e2 => e2

/-- The events of `k` trips round the loop in which nothing happened. -/
def quiet_trace (pid : Int) : Nat → List Event
  | 0 => []
  | k + 1 => Event.waitpid pid true 0 :: Event.usleep 1000 :: quiet_trace pid k

/-- The locals with which the loop is left at a poll that is not quiet, when
the flag was false before it. -/
def leave_at (pid : Int) (p : Poll) (l : Locals) : Locals :=
  if p.signals.contains Signum.SIGIO then
    { l with st := { l.st with signalled := true } }
  else
    match p.wait with
    | .running => l
    | .reaped st =>
      { exited := pid, status := st,
        st := { l.st with children := l.st.children.erase pid,
                          trace := l.st.trace ++ [.waitpid pid true pid] } }
    | .error e =>
      { exited := -1, status := l.status,
        st := { l.st with errno := (e : Nat), trace := l.st.trace ++ [.waitpid pid true (-1)] } }

/-- The content of `status` at the verdict, from the locals the loop left. -/
def final_status (env : CaseEnv) (exited status : Int) : Int :=
  if exited = 0 then
    match env.final_wait with
    | .reaped st => st
    | .error _ => status
  else status

/-- The state in which the parent enters the loop after a successful fork. -/
def parent_state (fname : String) (test : leasetest) (n : Nat) (pid : ℕ+) (s : State) : State :=
  { s with signalled := false, fds := (n : Int) :: s.fds,
           children := ((pid : Nat) : Int) :: s.children,
           trace := s.trace ++ [.enter test, .sys_open fname test.openflags true n,
                                .setlease n test.leasetype 0, .fork ((pid : Nat) : Int)] }

/-- What the verdict reads from the locals the loop left. -/
def Locals.seen (l : Locals) : Int × Int × Bool :=
  (l.exited, l.status, l.st.signalled)


/-! ## Sample environments -/

/-- A run of one case on a system with working leases: the child is still
running at the first poll; at the second the handler has seen SIGIO (when
`sig` is true) or the child has exited with code 0 (when it is false). -/
def sample_case (sig : Bool) : CaseEnv :=
  { exited0 := 7, status0 := 9, lease_open := .fd 3, lease_set := .granted, fork := .parent 100,
    conflict_open := .fd 3, perror_errno := none,
    polls := [⟨[], .running⟩, if sig then ⟨[Signum.SIGIO], .running⟩ else ⟨[], .reaped 0⟩],
    final_wait := .reaped 0, late_signals := [] }

/-- A run in which every case behaves as the table expects. -/
def sample_env : Env :=
  { argc := 2, fname := "testfile", sigaction := .ok, perror_errno := none,
    cases := fun i => sample_case (i != 0) }

/-- A run in which no lease break is ever signalled. -/
def silent_env : Env :=
  { argc := 2, fname := "testfile", sigaction := .ok, perror_errno := none,
    cases := fun _ => sample_case false }

/-- A run in which the second case cannot open the file (EACCES). -/
def denied_env : Env :=
  { argc := 2, fname := "testfile", sigaction := .ok, perror_errno := none,
    cases := fun i => if i = 1 then { sample_case true with lease_open := .error 13 }
                      else sample_case (i != 0) }

/-- A case in which the lease-holder open fails (EACCES) while the diagnostic
stream is one on which perror fails itself and leaves EINVAL in errno. -/
def clobbered_open_case : CaseEnv :=
  { sample_case true with lease_open := .error 13, perror_errno := some 22 }

/-- A case in which the lease request is rejected (EAGAIN) on the same kind of
diagnostic stream. -/
def clobbered_lease_case : CaseEnv :=
  { sample_case true with lease_set := .rejected 11, perror_errno := some 22 }

/-- A case in which SIGIO is handled before the parent reaches the loop for
the first time, while `exited` and `status` still hold what was on the stack;
the child's conflicting open has failed, as a wait for it would report. -/
def early_signal_case : CaseEnv :=
  { exited0 := 1, status0 := 0, lease_open := .fd 3, lease_set := .granted, fork := .parent 100,
    conflict_open := .error 13, perror_errno := none,
    polls := [⟨[Signum.SIGIO], .running⟩],
    final_wait := .reaped 256, late_signals := [] }
/-! ## Auxiliary facts -/

theorem neg_errno_neg (e : Errno) : -(((e : Nat) : Int)) < 0 := by
  have := e.pos
  omega

theorem pid_cast_pos (p : ℕ+) : (0 : Int) < ((p : Nat) : Int) := by
  have := p.pos
  omega

theorem deliver_eq (sigs : List Signum) (s : State) :
    deliver sigs s = { s with signalled := s.signalled || sigs.contains Signum.SIGIO } := by
  induction sigs generalizing s with
  | nil => simp [deliver]
  | cons g gs ih =>
    have h : deliver (g :: gs) s = deliver gs (lease_break g s) := rfl
    rw [h, ih]
    cases g <;> simp [lease_break, Bool.or_assoc]

theorem sleeps_append (a b : List Event) : sleeps (a ++ b) = sleeps a + sleeps b := by
  simp [sleeps]

theorem sleeps_waitpid (pid : Int) (b : Bool) (r : Int) :
    sleeps [Event.waitpid pid b r] = 0 := rfl

theorem sleeps_quiet_trace (pid : Int) (k : Nat) : sleeps (quiet_trace pid k) = k := by
  induction k with
  | zero => rfl
  | succ k ih =>
    have : sleeps (quiet_trace pid (k + 1)) = sleeps (quiet_trace pid k) + 1 := by
      simp [quiet_trace, sleeps]
    omega

theorem poll_loop_quiet (pid : Int) (p : Poll) (ps : List Poll) (l : Locals)
    (hq : p.quiet = true) (hf : l.st.signalled = false) :
    poll_loop pid (p :: ps) l =
      poll_loop pid ps
        { exited := 0, status := l.status,
          st := { l.st with trace := l.st.trace ++ [.waitpid pid true 0, .usleep 1000] } } := by
  obtain ⟨sigs, w⟩ := p
  simp only [Poll.quiet, Bool.and_eq_true, Bool.not_eq_true', beq_iff_eq] at hq
  obtain ⟨h1, h2⟩ := hq
  subst h2
  have h3 : Signum.SIGIO ∉ sigs := by simpa using h1
  simp [poll_loop, deliver_eq, hf, h3, sys_waitpid_nohang, sys_usleep, State.log]

theorem poll_loop_quiet_run (pid : Int) (pre rest : List Poll) (l : Locals)
    (hq : ∀ q ∈ pre, q.quiet = true) (hf : l.st.signalled = false) :
    poll_loop pid (pre ++ rest) l =
      poll_loop pid rest
        { exited := if pre = [] then l.exited else 0, status := l.status,
          st := { l.st with trace := l.st.trace ++ quiet_trace pid pre.length } } := by
  induction pre generalizing l with
  | nil => simp [quiet_trace]
  | cons q qs ih =>
    have hq1 : q.quiet = true := hq q (by simp)
    have hq2 : ∀ x ∈ qs, x.quiet = true := fun x hx => hq x (by simp [hx])
    rw [List.cons_append, poll_loop_quiet pid q _ l hq1 hf,
      ih { exited := 0, status := l.status,
           st := { l.st with trace := l.st.trace ++ [.waitpid pid true 0, .usleep 1000] } } hq2 hf]
    congr 1
    cases qs <;> simp [quiet_trace]

theorem poll_loop_leave (pid : Int) (p : Poll) (ps : List Poll) (l : Locals)
    (hq : p.quiet = false) (hf : l.st.signalled = false) (hpid : pid ≠ 0) :
    poll_loop pid (p :: ps) l = some (leave_at pid p l) := by
  obtain ⟨sigs, w⟩ := p
  by_cases h1 : Signum.SIGIO ∈ sigs
  · simp [poll_loop, deliver_eq, hf, h1, leave_at]
  · cases w with
    | running => simp [Poll.quiet, h1] at hq
    | reaped st =>
      simp [poll_loop, deliver_eq, hf, h1, leave_at, sys_waitpid_nohang, State.log, hpid]
    | error e =>
      simp [poll_loop, deliver_eq, hf, h1, leave_at, sys_waitpid_nohang, State.log]

theorem entered_append (a b : List Event) : entered (a ++ b) = entered a ++ entered b := by
  simp [entered]

theorem stderr_lines_append (a b : List Event) :
    stderr_lines (a ++ b) = stderr_lines a ++ stderr_lines b := by
  simp [stderr_lines]

theorem failure_reports_append (a b : List Event) :
    failure_reports (a ++ b) = failure_reports a ++ failure_reports b := by
  simp [failure_reports, stderr_lines_append]

/-- What the loop leaves alone: descriptors, the diagnostic stream, the record
of entered cases. -/
theorem poll_loop_frame (pid : Int) (polls : List Poll) (l l' : Locals)
    (h : poll_loop pid polls l = some l') :
    l'.st.fds = l.st.fds ∧ entered l'.st.trace = entered l.st.trace ∧
      stderr_lines l'.st.trace = stderr_lines l.st.trace := by
  induction polls generalizing l with
  | nil => simp [poll_loop] at h
  | cons p ps ih =>
    obtain ⟨sigs, w⟩ := p
    simp only [poll_loop, deliver_eq] at h
    split at h
    · cases h
      simp
    · split at h
      · cases h
        cases w <;>
          simp [sys_waitpid_nohang, State.log, entered_append, stderr_lines_append, entered,
            stderr_lines]
      · have := ih _ h
        cases w <;>
          simpa [sys_waitpid_nohang, sys_usleep, State.log, entered_append, stderr_lines_append,
            entered, stderr_lines] using this

theorem parent_wait_status (fd pid : Int) (env : CaseEnv) (l : Locals) :
    (parent_wait fd pid env l).1 = final_status env l.exited l.status := by
  unfold parent_wait final_status
  by_cases h : l.exited = 0
  · cases hw : env.final_wait <;> simp [h, hw, sys_waitpid_block]
  · simp [h]

theorem parent_wait_frame (fd pid : Int) (env : CaseEnv) (l : Locals) :
    (parent_wait fd pid env l).2.signalled = l.st.signalled ∧
      (parent_wait fd pid env l).2.fds = l.st.fds.erase fd ∧
      entered (parent_wait fd pid env l).2.trace = entered l.st.trace ∧
      stderr_lines (parent_wait fd pid env l).2.trace = stderr_lines l.st.trace := by
  unfold parent_wait
  by_cases h : l.exited = 0
  · cases hw : env.final_wait <;>
      simp [h, hw, sys_waitpid_block, sys_unlease, sys_close, State.log, entered_append,
        stderr_lines_append, entered, stderr_lines]
  · simp [h, sys_unlease, sys_close, State.log, entered_append,
        stderr_lines_append, entered, stderr_lines]

theorem setlease_open_error (fname : String) (fl : OpenFlag) (lt : LeaseType) (env : CaseEnv)
    (s : State) (e : Errno) (h : env.lease_open = .error e) :
    setlease fname fl lt env s =
      (-(((errno_left e env.perror_errno : Errno) : Nat) : Int),
        { s with errno := (((errno_left e env.perror_errno : Errno) : Nat) : Int),
                 trace := s.trace ++ [.sys_open fname fl true (-1),
                                      .stderr (.perror "open" (e : Nat))] }) := by
  cases hp : env.perror_errno <;> simp [setlease, sys_open, perror, State.log, h, hp, errno_left]

theorem setlease_rejected (fname : String) (fl : OpenFlag) (lt : LeaseType) (env : CaseEnv)
    (s : State) (n : Nat) (e : Errno) (h : env.lease_open = .fd n)
    (h2 : env.lease_set = .rejected e) :
    setlease fname fl lt env s =
      (-(((errno_left e env.perror_errno : Errno) : Nat) : Int),
        { s with errno := (((errno_left e env.perror_errno : Errno) : Nat) : Int), fds := (n : Int) :: s.fds,
                 trace := s.trace ++ [.sys_open fname fl true n, .setlease n lt (-1),
                                      .stderr (.perror "setlease" (e : Nat))] }) := by
  have hn : ¬ ((n : Int) < 0) := by omega
  cases hp : env.perror_errno <;>
    simp [setlease, sys_open, sys_setlease, perror, State.log, h, h2, hn, hp, errno_left]

theorem setlease_granted (fname : String) (fl : OpenFlag) (lt : LeaseType) (env : CaseEnv)
    (s : State) (n : Nat) (h : env.lease_open = .fd n)
    (h2 : env.lease_set = .granted) :
    setlease fname fl lt env s =
      ((n : Int),
        { s with fds := (n : Int) :: s.fds,
                 trace := s.trace ++ [.sys_open fname fl true n, .setlease n lt 0] }) := by
  have hn : ¬ ((n : Int) < 0) := by omega
  simp [setlease, sys_open, sys_setlease, perror, State.log, h, h2, hn]

theorem state_at_fork (fname : String) (test : leasetest) (env : CaseEnv) (s : State) (n : Nat)
    (pid : ℕ+) (hopen : env.lease_open = .fd n) (hset : env.lease_set = .granted)
    (hfork : env.fork = .parent pid) :
    (sys_fork env.fork (setlease fname test.openflags test.leasetype env
      ({ s with signalled := false }.log (.enter test))).2).2 = parent_state fname test n pid s := by
  rw [setlease_granted fname _ _ env _ n hopen hset]
  simp [sys_fork, State.log, hfork, parent_state]

theorem slb_open_error (W : WaitMacros) (fname : String) (test : leasetest) (env : CaseEnv)
    (s : State) (e : Errno) (hopen : env.lease_open = .error e) :
    simple_lease_break W fname test env s =
      some (.ret (-(((errno_left e env.perror_errno : Errno) : Nat) : Int)),
        { s with signalled := false, errno := (((errno_left e env.perror_errno : Errno) : Nat) : Int),
                 trace := s.trace ++ [.enter test, .sys_open fname test.openflags true (-1),
                                      .stderr (.perror "open" (e : Nat))] }) := by
  have := neg_errno_neg (errno_left e env.perror_errno)
  simp only [simple_lease_break]
  rw [setlease_open_error fname _ _ env _ e hopen]
  simp [State.log, this]

theorem slb_rejected (W : WaitMacros) (fname : String) (test : leasetest) (env : CaseEnv)
    (s : State) (n : Nat) (e : Errno) (hopen : env.lease_open = .fd n)
    (hset : env.lease_set = .rejected e) :
    simple_lease_break W fname test env s =
      some (.ret (-(((errno_left e env.perror_errno : Errno) : Nat) : Int)),
        { s with signalled := false, errno := (((errno_left e env.perror_errno : Errno) : Nat) : Int), fds := (n : Int) :: s.fds,
                 trace := s.trace ++ [.enter test, .sys_open fname test.openflags true n,
                                      .setlease n test.leasetype (-1),
                                      .stderr (.perror "setlease" (e : Nat))] }) := by
  have := neg_errno_neg (errno_left e env.perror_errno)
  simp only [simple_lease_break]
  rw [setlease_rejected fname _ _ env _ n e hopen hset]
  simp [State.log, this]

theorem slb_fork_error (W : WaitMacros) (fname : String) (test : leasetest) (env : CaseEnv)
    (s : State) (n : Nat) (e : Errno) (hopen : env.lease_open = .fd n)
    (hset : env.lease_set = .granted) (hfork : env.fork = .error e) :
    simple_lease_break W fname test env s =
      some (.ret (-(((e : Nat) : Int))),
        { s with signalled := false, errno := (e : Nat), fds := (n : Int) :: s.fds,
                 trace := s.trace ++ [.enter test, .sys_open fname test.openflags true n,
                                      .setlease n test.leasetype 0, .fork (-1)] }) := by
  have hn : ¬ ((n : Int) < 0) := by omega
  simp only [simple_lease_break]
  rw [setlease_granted fname _ _ env _ n hopen hset]
  simp [sys_fork, State.log, hfork, hn]

theorem slb_child_opened (W : WaitMacros) (fname : String) (test : leasetest) (env : CaseEnv)
    (s : State) (n m : Nat) (hopen : env.lease_open = .fd n)
    (hset : env.lease_set = .granted) (hfork : env.fork = .child)
    (hconf : env.conflict_open = .fd m) :
    simple_lease_break W fname test env s =
      some (.exit 0,
        { s with signalled := false, children := [],
                 trace := s.trace ++ [.enter test, .sys_open fname test.openflags true n,
                                      .setlease n test.leasetype 0, .fork 0, .close n,
                                      .sys_open fname test.conf_openflags false m, .close m,
                                      .exit 0] }) := by
  have hn : ¬ ((n : Int) < 0) := by omega
  have hm : ¬ ((m : Int) < 0) := by omega
  simp only [simple_lease_break]
  rw [setlease_granted fname _ _ env _ n hopen hset]
  simp [sys_fork, child_branch, open_conflict, sys_open, sys_close, State.log, hfork, hconf, hn,
    hm]

theorem slb_child_failed (W : WaitMacros) (fname : String) (test : leasetest) (env : CaseEnv)
    (s : State) (n : Nat) (e : Errno) (hopen : env.lease_open = .fd n)
    (hset : env.lease_set = .granted) (hfork : env.fork = .child)
    (hconf : env.conflict_open = .error e) :
    simple_lease_break W fname test env s =
      some (.exit 1,
        { s with signalled := false, errno := (((errno_left e env.perror_errno : Errno) : Nat) : Int), children := [],
                 trace := s.trace ++ [.enter test, .sys_open fname test.openflags true n,
                                      .setlease n test.leasetype 0, .fork 0, .close n,
                                      .sys_open fname test.conf_openflags false (-1),
                                      .stderr (.perror "open" (e : Nat)), .exit 1] }) := by
  have hn : ¬ ((n : Int) < 0) := by omega
  simp only [simple_lease_break]
  rw [setlease_granted fname _ _ env _ n hopen hset]
  cases hp : env.perror_errno with
  | none =>
    have := e.pos
    have h2 : ((e : Nat) : Int) ≠ 0 := by omega
    simp [sys_fork, child_branch, open_conflict, sys_open, sys_close, perror, State.log, hfork,
      hconf, hn, h2, hp, errno_left]
  | some e2 =>
    have := e2.pos
    have h2 : ((e2 : Nat) : Int) ≠ 0 := by omega
    simp [sys_fork, child_branch, open_conflict, sys_open, sys_close, perror, State.log, hfork,
      hconf, hn, h2, hp, errno_left]

theorem slb_parent (W : WaitMacros) (fname : String) (test : leasetest) (env : CaseEnv)
    (s : State) (n : Nat) (pid : ℕ+) (hopen : env.lease_open = .fd n)
    (hset : env.lease_set = .granted) (hfork : env.fork = .parent pid) :
    simple_lease_break W fname test env s =
      (poll_loop pid env.polls
        { exited := env.exited0, status := env.status0,
          st := parent_state fname test n pid s }).map fun l =>
        (Ctl.ret (verdict W test (parent_wait n pid env l).1
            (deliver env.late_signals (parent_wait n pid env l).2).signalled),
          deliver env.late_signals (parent_wait n pid env l).2) := by
  have hp := pid.pos
  have h1 : ¬ (((pid : Nat) : Int) < 0) := by omega
  have h2 : ((pid : Nat) : Int) ≠ 0 := by omega
  have h3 := state_at_fork fname test env s n pid hopen hset hfork
  have hn : ¬ ((n : Int) < 0) := by omega
  simp only [simple_lease_break, h3]
  rw [setlease_granted fname _ _ env _ n hopen hset]
  simp [sys_fork, State.log, hfork, h1, hn]
  cases poll_loop pid env.polls
      { exited := env.exited0, status := env.status0, st := parent_state fname test n pid s } <;>
    simp


theorem poll_loop_congr (pid : Int) (polls : List Poll) (l1 l2 : Locals)
    (h : l1.seen = l2.seen) :
    (poll_loop pid polls l1).map Locals.seen = (poll_loop pid polls l2).map Locals.seen := by
  induction polls generalizing l1 l2 with
  | nil => simp [poll_loop]
  | cons p ps ih =>
    obtain ⟨sigs, w⟩ := p
    simp only [Locals.seen, Prod.mk.injEq] at h
    obtain ⟨he, hs, hf⟩ := h
    by_cases hflag : (l2.st.signalled || sigs.contains Signum.SIGIO) = true
    · have hflag1 : (l1.st.signalled || sigs.contains Signum.SIGIO) = true := by rw [hf]; exact hflag
      simp only [poll_loop, deliver_eq, hflag, hflag1]
      simp [Locals.seen, he, hs]
    · have hflag1 : ¬ (l1.st.signalled || sigs.contains Signum.SIGIO) = true := by
        rw [hf]; exact hflag
      simp only [poll_loop, deliver_eq, hflag, hflag1]
      cases w with
      | running =>
        simp only [sys_waitpid_nohang]
        simp only [ne_eq, not_true_eq_false, if_false, Bool.false_eq_true]
        apply ih
        simp [Locals.seen, hs, sys_usleep, State.log, hf]
      | reaped st =>
        simp only [sys_waitpid_nohang]
        by_cases hp : pid = 0
        · subst hp
          simp only [ne_eq, not_true_eq_false, if_false, Bool.false_eq_true]
          apply ih
          simp [Locals.seen, sys_usleep, State.log, hf]
        · simp [hp, Locals.seen, State.log, hf]
      | error e =>
        simp [sys_waitpid_nohang, Locals.seen, State.log, hf, hs]

theorem parent_value (W : WaitMacros) (test : leasetest) (fd pid : Int) (env : CaseEnv)
    (l : Locals) :
    verdict W test (parent_wait fd pid env l).1
        (deliver env.late_signals (parent_wait fd pid env l).2).signalled =
      verdict W test (final_status env l.seen.1 l.seen.2.1)
        (l.seen.2.2 || env.late_signals.contains Signum.SIGIO) := by
  rw [parent_wait_status, deliver_eq]
  simp [(parent_wait_frame fd pid env l).1, Locals.seen]

/-- The value a call of `simple_lease_break` hands back does not depend on
the state it starts in. -/
theorem simple_lease_break_ctl_indep (W : WaitMacros) (fname : String) (test : leasetest)
    (env : CaseEnv) (s1 s2 : State) :
    (simple_lease_break W fname test env s1).map Prod.fst =
      (simple_lease_break W fname test env s2).map Prod.fst := by
  cases hopen : env.lease_open with
  | error e => simp [slb_open_error W fname test env _ e hopen]
  | fd n =>
    cases hset : env.lease_set with
    | rejected e => simp [slb_rejected W fname test env _ n e hopen hset]
    | granted =>
      cases hfork : env.fork with
      | error e => simp [slb_fork_error W fname test env _ n e hopen hset hfork]
      | child =>
        cases hconf : env.conflict_open with
        | fd m => simp [slb_child_opened W fname test env _ n m hopen hset hfork hconf]
        | error e => simp [slb_child_failed W fname test env _ n e hopen hset hfork hconf]
      | parent pid =>
        rw [slb_parent W fname test env s1 n pid hopen hset hfork,
          slb_parent W fname test env s2 n pid hopen hset hfork]
        simp only [Option.map_map]
        have hfun : ∀ s : State,
            (poll_loop pid env.polls
              { exited := env.exited0, status := env.status0,
                st := parent_state fname test n pid s }).map
              (Prod.fst ∘ fun l =>
                (Ctl.ret (verdict W test (parent_wait n pid env l).1
                  (deliver env.late_signals (parent_wait n pid env l).2).signalled),
                  deliver env.late_signals (parent_wait n pid env l).2)) =
            ((poll_loop pid env.polls
              { exited := env.exited0, status := env.status0,
                st := parent_state fname test n pid s }).map Locals.seen).map
              (fun v => Ctl.ret (verdict W test (final_status env v.1 v.2.1)
                (v.2.2 || env.late_signals.contains Signum.SIGIO))) := by
          intro s
          rw [Option.map_map]
          congr 1
          funext l
          simp [parent_value]
        rw [hfun s1, hfun s2]
        congr 1
        apply poll_loop_congr
        simp [Locals.seen, parent_state]

/-- What one call of `simple_lease_break` adds to the trace: its own entry
record, no "Test failure" line, and nothing at all on the diagnostic stream
when it returns zero. -/
theorem simple_lease_break_frame (W : WaitMacros) (fname : String) (test : leasetest)
    (env : CaseEnv) (s s' : State) (c : Ctl)
    (h : simple_lease_break W fname test env s = some (c, s')) :
    entered s'.trace = entered s.trace ++ [test] ∧
      failure_reports s'.trace = failure_reports s.trace ∧
      (c = .ret 0 → stderr_lines s'.trace = stderr_lines s.trace) ∧
      (∀ code, c = .exit code → code = 0 ∨ code = 1) := by
  cases hopen : env.lease_open with
  | error e =>
    rw [slb_open_error W fname test env _ e hopen] at h
    have := neg_errno_neg (errno_left e env.perror_errno)
    simp only [Option.some.injEq, Prod.mk.injEq] at h
    obtain ⟨hc, hs⟩ := h
    subst hc hs
    refine ⟨by simp [entered], by simp [failure_reports, stderr_lines], ?_, by simp⟩
    intro h0
    simp only [Ctl.ret.injEq] at h0
    omega
  | fd n =>
    cases hset : env.lease_set with
    | rejected e =>
      rw [slb_rejected W fname test env _ n e hopen hset] at h
      have := neg_errno_neg (errno_left e env.perror_errno)
      simp only [Option.some.injEq, Prod.mk.injEq] at h
      obtain ⟨hc, hs⟩ := h
      subst hc hs
      refine ⟨by simp [entered], by simp [failure_reports, stderr_lines], ?_, by simp⟩
      intro h0
      simp only [Ctl.ret.injEq] at h0
      omega
    | granted =>
      cases hfork : env.fork with
      | error e =>
        rw [slb_fork_error W fname test env _ n e hopen hset hfork] at h
        simp only [Option.some.injEq, Prod.mk.injEq] at h
        obtain ⟨hc, hs⟩ := h
        subst hc hs
        refine ⟨by simp [entered], by simp [failure_reports, stderr_lines], ?_, by simp⟩
        intro _
        simp [stderr_lines]
      | child =>
        cases hconf : env.conflict_open with
        | fd m =>
          rw [slb_child_opened W fname test env _ n m hopen hset hfork hconf] at h
          simp only [Option.some.injEq, Prod.mk.injEq] at h
          obtain ⟨hc, hs⟩ := h
          subst hc hs
          refine ⟨by simp [entered], by simp [failure_reports, stderr_lines], ?_, by simp⟩
          intro h0
          simp at h0
        | error e =>
          rw [slb_child_failed W fname test env _ n e hopen hset hfork hconf] at h
          simp only [Option.some.injEq, Prod.mk.injEq] at h
          obtain ⟨hc, hs⟩ := h
          subst hc hs
          refine ⟨by simp [entered], by simp [failure_reports, stderr_lines], ?_, by simp⟩
          intro h0
          simp at h0
      | parent pid =>
        rw [slb_parent W fname test env s n pid hopen hset hfork] at h
        cases hl : poll_loop pid env.polls
            { exited := env.exited0, status := env.status0,
              st := parent_state fname test n pid s } with
        | none => simp [hl] at h
        | some l =>
          rw [hl] at h
          simp only [Option.map_some', Option.some.injEq, Prod.mk.injEq] at h
          obtain ⟨hc, hs⟩ := h
          have hf := poll_loop_frame pid env.polls _ l hl
          have hw := parent_wait_frame n pid env l
          have he : entered s'.trace = entered s.trace ++ [test] := by
            rw [← hs, deliver_eq]
            simp only [hw.2.2.1, hf.2.1]
            simp [parent_state, entered]
          have hd : stderr_lines s'.trace = stderr_lines s.trace := by
            rw [← hs, deliver_eq]
            simp only [hw.2.2.2, hf.2.2]
            simp [parent_state, stderr_lines]
          refine ⟨he, by simp [failure_reports, hd], fun _ => hd, ?_⟩
          intro code hcode
          rw [← hc] at hcode
          simp at hcode


theorem case_step (W : WaitMacros) (fname : String) (test : leasetest) (env : CaseEnv)
    (s : State) (c : Ctl)
    (h : (simple_lease_break W fname test env State.init).map Prod.fst = some c) :
    ∃ s', simple_lease_break W fname test env s = some (c, s') := by
  rw [simple_lease_break_ctl_indep W fname test env State.init s] at h
  cases hr : simple_lease_break W fname test env s with
  | none => simp [hr] at h
  | some v =>
    obtain ⟨c', s'⟩ := v
    simp [hr] at h
    exact ⟨s', by rw [h]⟩

theorem run_tests_pass (W : WaitMacros) (fname : String) (cases : Nat → CaseEnv)
    (ts : List leasetest) (i : Nat) (s : State)
    (h : ∀ k t, ts[k]? = some t →
      (simple_lease_break W fname t (cases (i + k)) State.init).map Prod.fst = some (.ret 0)) :
    ∃ s', run_tests W fname cases ts i s = some (.returned 0, s') ∧
      entered s'.trace = entered s.trace ++ ts ∧ stderr_lines s'.trace = stderr_lines s.trace := by
  induction ts generalizing i s with
  | nil => exact ⟨s, by simp [run_tests]⟩
  | cons t ts ih =>
    obtain ⟨s1, h1⟩ := case_step W fname t (cases i) s (.ret 0) (by simpa using h 0 t (by simp))
    have hfr := simple_lease_break_frame W fname t (cases i) s s1 _ h1
    have hrest : ∀ k u, ts[k]? = some u →
        (simple_lease_break W fname u (cases (i + 1 + k)) State.init).map Prod.fst
          = some (.ret 0) := by
      intro k u hk
      have := h (k + 1) u (by simpa using hk)
      rwa [show i + (k + 1) = i + 1 + k by omega] at this
    obtain ⟨s2, h2, he, hd⟩ := ih (i + 1) s1 hrest
    refine ⟨s2, ?_, ?_, ?_⟩
    · simp [run_tests, h1, h2]
    · rw [he, hfr.1]; simp
    · rw [hd, hfr.2.2.1 rfl]

theorem run_tests_fail (W : WaitMacros) (fname : String) (cases : Nat → CaseEnv)
    (ts : List leasetest) (i : Nat) (s : State) (k : Nat) (t : leasetest) (r : Int)
    (hprev : ∀ j u, j < k → ts[j]? = some u →
      (simple_lease_break W fname u (cases (i + j)) State.init).map Prod.fst = some (.ret 0))
    (ht : ts[k]? = some t)
    (hk : (simple_lease_break W fname t (cases (i + k)) State.init).map Prod.fst = some (.ret r))
    (hr : r ≠ 0) :
    ∃ s', run_tests W fname cases ts i s = some (.exited 1, s') ∧
      entered s'.trace = entered s.trace ++ ts.take (k + 1) ∧
      failure_reports s'.trace = failure_reports s.trace ++ [t] ∧
      s'.trace.getLast? = some (.exit 1) := by
  induction ts generalizing i s k with
  | nil => simp at ht
  | cons u us ih =>
    cases k with
    | zero =>
      simp only [List.getElem?_cons_zero, Option.some.injEq] at ht
      subst ht
      obtain ⟨s1, h1⟩ := case_step W fname u (cases i) s (.ret r) (by simpa using hk)
      have hfr := simple_lease_break_frame W fname u (cases i) s s1 _ h1
      refine ⟨(s1.log (.stderr (.test_failure u))).log (.exit 1), ?_, ?_, ?_, ?_⟩
      · simp [run_tests, h1, hr]
      · simp only [State.log, entered_append, hfr.1]
        simp [entered]
      · simp only [State.log, failure_reports_append, hfr.2.1]
        simp [failure_reports, stderr_lines]
      · simp [State.log]
    | succ k =>
      obtain ⟨s1, h1⟩ := case_step W fname u (cases i) s (.ret 0)
        (by simpa using hprev 0 u (by omega) (by simp))
      have hfr := simple_lease_break_frame W fname u (cases i) s s1 _ h1
      have hprev2 : ∀ j v, j < k → us[j]? = some v →
          (simple_lease_break W fname v (cases (i + 1 + j)) State.init).map Prod.fst
            = some (.ret 0) := by
        intro j v hj hv
        have := hprev (j + 1) v (by omega) (by simpa using hv)
        rwa [show i + (j + 1) = i + 1 + j by omega] at this
      have hk2 : (simple_lease_break W fname t (cases (i + 1 + k)) State.init).map Prod.fst
          = some (.ret r) := by
        rwa [show i + (k + 1) = i + 1 + k by omega] at hk
      obtain ⟨s2, h2, he, hf, hl⟩ := ih (i + 1) s1 k hprev2 (by simpa using ht) hk2
      refine ⟨s2, ?_, ?_, ?_, hl⟩
      · simp [run_tests, h1, h2]
      · rw [he, hfr.1]; simp
      · rw [hf, hfr.2.1]

theorem run_tests_value (W : WaitMacros) (fname : String) (cases : Nat → CaseEnv)
    (ts : List leasetest) (i : Nat) (s s' : State) (o : Outcome)
    (h : run_tests W fname cases ts i s = some (o, s')) : o.value = 0 ∨ o.value = 1 := by
  induction ts generalizing i s with
  | nil =>
    simp [run_tests] at h
    rw [← h.1]; simp [Outcome.value]
  | cons t ts ih =>
    simp only [run_tests] at h
    cases hr : simple_lease_break W fname t (cases i) s with
    | none => simp [hr] at h
    | some v =>
      obtain ⟨c, s1⟩ := v
      rw [hr] at h
      cases c with
      | exit code =>
        simp only [Option.some.injEq, Prod.mk.injEq] at h
        have := (simple_lease_break_frame W fname t (cases i) s s1 _ hr).2.2.2 code rfl
        rw [← h.1]
        simpa [Outcome.value] using this
      | ret r =>
        simp only at h
        by_cases h0 : r = 0
        · simp only [h0, ne_eq, not_true_eq_false, if_false] at h
          exact ih _ _ h
        · simp only [ne_eq, h0, not_false_eq_true, if_true, Option.some.injEq,
            Prod.mk.injEq] at h
          rw [← h.1]; simp [Outcome.value]

theorem parent_wait_children (fd pid : Int) (env : CaseEnv) (l : Locals) :
    (parent_wait fd pid env l).2.children =
      if l.exited = 0 then
        match env.final_wait with
        | .reaped _ => l.st.children.erase pid
        | .error _ => l.st.children
      else l.st.children := by
  unfold parent_wait
  by_cases h : l.exited = 0
  · cases hw : env.final_wait <;> simp [h, hw, sys_waitpid_block, sys_unlease, sys_close, State.log]
  · simp [h, sys_unlease, sys_close, State.log]

theorem case_result_some (W : WaitMacros) (env : Env) (j : Nat) (t : leasetest)
    (ht : testcase[j]? = some t) :
    case_result W env j =
      (simple_lease_break W env.fname t (env.cases j) State.init).map Prod.fst := by
  simp [case_result, ht]

theorem main_runs_tests (W : WaitMacros) (env : Env) (hargc : 2 ≤ env.argc)
    (hsig : env.sigaction = .ok) :
    main W env =
      run_tests W env.fname env.cases testcase 0 (State.init.log (.sigaction Signum.SIGIO 0)) := by
  have h : ¬ (env.argc < 2) := by omega
  simp [main, h, hsig, sys_sigaction]

theorem main_fails_at (W : WaitMacros) (env : Env) (hargc : 2 ≤ env.argc)
    (hsig : env.sigaction = .ok) (i : Nat) (t : leasetest) (r : Int)
    (ht : testcase[i]? = some t)
    (hprev : ∀ j, j < i → case_result W env j = some (.ret 0))
    (hi : case_result W env i = some (.ret r)) (hr : r ≠ 0) :
    ∃ s, main W env = some (.exited 1, s) ∧ entered s.trace = testcase.take (i + 1) ∧
      failure_reports s.trace = [t] ∧ s.trace.getLast? = some (.exit 1) := by
  rw [main_runs_tests W env hargc hsig]
  have h1 : ∀ j u, j < i → testcase[j]? = some u →
      (simple_lease_break W env.fname u (env.cases (0 + j)) State.init).map Prod.fst
        = some (.ret 0) := by
    intro j u hj hu
    rw [Nat.zero_add, ← case_result_some W env j u hu]
    exact hprev j hj
  have h2 : (simple_lease_break W env.fname t (env.cases (0 + i)) State.init).map Prod.fst
      = some (.ret r) := by
    rw [Nat.zero_add, ← case_result_some W env i t ht]
    exact hi
  obtain ⟨s, hs, he, hf, hl⟩ := run_tests_fail W env.fname env.cases testcase 0
    (State.init.log (.sigaction Signum.SIGIO 0)) i t r h1 ht h2 hr
  refine ⟨s, hs, ?_, ?_, hl⟩
  · rw [he]; simp [State.log, State.init, entered]
  · rw [hf]; simp [State.log, State.init, failure_reports, stderr_lines]

theorem poll_loop_total (pid : Int) (polls : List Poll) (l : Locals) (hpid : pid ≠ 0)
    (h : ∃ p ∈ polls, p.quiet = false) : ∃ l', poll_loop pid polls l = some l' := by
  rw [← Option.isSome_iff_exists]
  induction polls generalizing l with
  | nil => simp at h
  | cons p ps ih =>
    obtain ⟨sigs, w⟩ := p
    simp only [poll_loop, deliver_eq]
    split
    · rfl
    · rename_i hflag
      split
      · rfl
      · rename_i hw
        simp only [Bool.or_eq_true, not_or, Bool.not_eq_true] at hflag
        have hrun : w = .running := by
          cases w with
          | running => rfl
          | reaped st => simp [sys_waitpid_nohang, hpid] at hw
          | error e => simp [sys_waitpid_nohang] at hw
        subst hrun
        apply ih
        obtain ⟨q, hq1, hq2⟩ := h
        rcases List.mem_cons.1 hq1 with h3 | h3
        · subst h3
          have hc : Signum.SIGIO ∉ sigs := by simpa using hflag.2
          simp [Poll.quiet, hc] at hq2
        · exact ⟨q, h3, hq2⟩

/-! ## The claims -/

/-- C4: the table has exactly four entries; each pairing of a lease type in
{F_RDLCK, F_WRLCK} with a conflicting open mode in {O_RDONLY, O_WRONLY} occurs
exactly once; `expect_signal` is true exactly when the lease is a write lease
or the conflicting open is for writing; and the only entry that expects no
signal is the read lease with a read-only conflicting open. -/
theorem testcase_matrix :
    testcase.length = 4 ∧
    (∀ lt ∈ [LeaseType.F_RDLCK, LeaseType.F_WRLCK], ∀ m ∈ [OpenFlag.O_RDONLY, OpenFlag.O_WRONLY],
      (testcase.filter fun t => t.leasetype = lt ∧ t.conf_openflags = m).length = 1) ∧
    (∀ t ∈ testcase, t.leasetype = .F_RDLCK ∨ t.leasetype = .F_WRLCK) ∧
    (∀ t ∈ testcase,
      (t.expect_signal = true ↔ (t.leasetype = .F_WRLCK ∨ t.conf_openflags = .O_WRONLY))) ∧
    (testcase.filter fun t => t.expect_signal = false) =
      [{ openflags := .O_RDONLY, leasetype := .F_RDLCK, conf_openflags := .O_RDONLY,
         expect_signal := false }] := by
  decide

/-- C7: with fewer than two arguments `main` writes the usage line to
standard output and returns 1; that line is the only thing the process did, so
no handler was installed, no file opened, no child forked and nothing written
to the diagnostic stream. -/
theorem main_usage (W : WaitMacros) (env : Env) (h : env.argc < 2) :
    ∃ s, main W env = some (.returned 1, s) ∧ s.trace = [.stdout .usage] ∧
      s.fds = [] ∧ s.children = [] ∧ stderr_lines s.trace = [] ∧ entered s.trace = [] := by
  refine ⟨usage State.init, by simp [main, h], ?_⟩
  simp [usage, State.init, State.log, stderr_lines, entered]

theorem main_usage_witness :
    ∃ s, main linuxWait { sample_env with argc := 1 } = some (.returned 1, s) ∧
      s.trace = [.stdout .usage] ∧ s.fds = [] ∧ s.children = [] ∧ stderr_lines s.trace = [] ∧
      entered s.trace = [] :=
  main_usage linuxWait { sample_env with argc := 1 } (by decide)

/-- What the verdict is when a wait has collected the child: if the
non-blocking wait that ends the loop reports the child's status `st`, or the
loop ends on the flag after at least one earlier poll and the blocking wait
reports `st`, then `simple_lease_break` returns the verdict computed from `st`
and the final value of the flag. -/
theorem simple_lease_break_verdict_collected (W : WaitMacros) (fname : String)
    (test : leasetest) (env : CaseEnv) (s : State) (n : Nat) (pid : ℕ+)
    (pre post : List Poll) (p : Poll) (st : Int)
    (hopen : env.lease_open = .fd n) (hset : env.lease_set = .granted)
    (hfork : env.fork = .parent pid) (hpolls : env.polls = pre ++ p :: post)
    (hpre : ∀ q ∈ pre, q.quiet = true)
    (hcol : (Signum.SIGIO ∉ p.signals ∧ p.wait = .reaped st) ∨
      (Signum.SIGIO ∈ p.signals ∧ pre ≠ [] ∧ env.final_wait = .reaped st)) :
    ∃ s', simple_lease_break W fname test env s
        = some (.ret (verdict W test st s'.signalled), s') ∧
      s'.children = s.children := by
  have hp := pid.pos
  have hpid : ((pid : Nat) : Int) ≠ 0 := by omega
  have hq : p.quiet = false := by
    obtain ⟨sigs, w⟩ := p
    rcases hcol with ⟨h1, h2⟩ | ⟨h1, _, _⟩
    · have h2' : w = .reaped st := h2
      subst h2'
      simp [Poll.quiet]
    · have h1' : Signum.SIGIO ∈ sigs := h1
      simp [Poll.quiet, h1']
  obtain ⟨l0, hl, hL⟩ : ∃ l0, poll_loop pid env.polls
      { exited := env.exited0, status := env.status0, st := parent_state fname test n pid s }
      = some l0 ∧ l0 = leave_at pid p
          { exited := if pre = [] then env.exited0 else 0, status := env.status0,
            st := { parent_state fname test n pid s with
              trace := (parent_state fname test n pid s).trace ++
                quiet_trace pid pre.length } } := by
    refine ⟨_, ?_, rfl⟩
    rw [hpolls, poll_loop_quiet_run pid pre (p :: post) _ hpre rfl]
    exact poll_loop_leave pid p post _ hq rfl hpid
  refine ⟨deliver env.late_signals (parent_wait n pid env l0).2, ?_, ?_⟩
  · rw [slb_parent W fname test env s n pid hopen hset hfork, hl]
    simp only [Option.map_some']
    have hst : (parent_wait n pid env l0).1 = st := by
      rw [parent_wait_status, hL]
      obtain ⟨sigs, w⟩ := p
      rcases hcol with ⟨h1, h2⟩ | ⟨h1, h2, h3⟩
      · have h1' : Signum.SIGIO ∉ sigs := h1
        have h2' : w = .reaped st := h2
        subst h2'
        simp [leave_at, h1', hpid, final_status]
      · have h1' : Signum.SIGIO ∈ sigs := h1
        simp [leave_at, h1', h2, h3, final_status]
    rw [hst]
  · rw [deliver_eq]
    simp only [parent_wait_children, hL]
    obtain ⟨sigs, w⟩ := p
    rcases hcol with ⟨h1, h2⟩ | ⟨h1, h2, h3⟩
    · have h1' : Signum.SIGIO ∉ sigs := h1
      have h2' : w = .reaped st := h2
      subst h2'
      simp [leave_at, h1', hpid, parent_state]
    · have h1' : Signum.SIGIO ∈ sigs := h1
      simp [leave_at, h1', h2, h3, parent_state]

/-- C1 fails on the code: in the run of `early_signal_case` the child's
conflicting open fails, so the child exits with code 1 and a wait for it
reports status 256 (exited normally, code 1); the final value of the flag
equals `expect_signal`.  The claim makes the case return the child's exit code,
1.  The code returns 0: SIGIO came before the loop was reached, `exited` holds
stack content, the blocking wait is skipped, and the verdict is computed from
the stack content of `status`.  It returns 0 in the same way when the child was
killed by a signal (status 9).  With zero in `exited` the same run waits and
returns 1.  In the other direction, when the child's open succeeds and it exits
with code 0 while the stack content of `status` is 256, the code returns 1
where the claim makes it return 0. -/
theorem early_signal_verdict_ignores_child :
    early_signal_case.final_wait = .reaped 256 ∧
    linuxWait.WIFEXITED 256 = true ∧ linuxWait.WEXITSTATUS 256 = 1 ∧
    (simple_lease_break linuxWait "testfile" ⟨.O_RDONLY, .F_RDLCK, .O_WRONLY, true⟩
        { early_signal_case with fork := .child } State.init).map Prod.fst = some (.exit 1) ∧
    (simple_lease_break linuxWait "testfile" ⟨.O_RDONLY, .F_RDLCK, .O_WRONLY, true⟩
        early_signal_case State.init).map (fun r => (r.1, r.2.signalled))
      = some (.ret 0, true) ∧
    linuxWait.WIFEXITED 9 = false ∧
    (simple_lease_break linuxWait "testfile" ⟨.O_RDONLY, .F_RDLCK, .O_WRONLY, true⟩
        { early_signal_case with final_wait := .reaped 9 } State.init).map Prod.fst
      = some (.ret 0) ∧
    (simple_lease_break linuxWait "testfile" ⟨.O_RDONLY, .F_RDLCK, .O_WRONLY, true⟩
        { early_signal_case with exited0 := 0 } State.init).map Prod.fst = some (.ret 1) ∧
    (simple_lease_break linuxWait "testfile" ⟨.O_RDONLY, .F_RDLCK, .O_WRONLY, true⟩
        { early_signal_case with exited0 := 0, final_wait := .reaped 9 } State.init).map Prod.fst
      = some (.ret 1) ∧
    linuxWait.WIFEXITED 0 = true ∧ linuxWait.WEXITSTATUS 0 = 0 ∧
    (simple_lease_break linuxWait "testfile" ⟨.O_RDONLY, .F_RDLCK, .O_WRONLY, true⟩
        { early_signal_case with conflict_open := .fd 4, fork := .child } State.init).map
        Prod.fst
      = some (.exit 0) ∧
    (simple_lease_break linuxWait "testfile" ⟨.O_RDONLY, .F_RDLCK, .O_WRONLY, true⟩
        { early_signal_case with conflict_open := .fd 4, final_wait := .reaped 0,
                                 status0 := 256 } State.init).map
        (fun r => (r.1, r.2.signalled))
      = some (.ret 1, true) := by
  decide

/-- C10: in the child branch the process closes the inherited lease-holder
descriptor, only then attempts the conflicting open, closes the descriptor it
got at once, and calls exit; the trace lists exactly these calls in this
order.  The branch leaves `signalled` as it found it.  The exit code is 0
exactly when the conflicting open succeeded and 1 exactly when it failed,
whatever the error. -/
theorem child_branch_behaviour (W : WaitMacros) (fname : String) (test : leasetest)
    (env : CaseEnv) (s : State) (n : Nat)
    (hopen : env.lease_open = .fd n) (hset : env.lease_set = .granted)
    (hfork : env.fork = .child) :
    ∃ code s', simple_lease_break W fname test env s = some (.exit code, s') ∧
      s'.trace = s.trace ++
        [.enter test, .sys_open fname test.openflags true n, .setlease n test.leasetype 0,
          .fork 0, .close n] ++
        (match env.conflict_open with
          | .fd m => [.sys_open fname test.conf_openflags false m, .close m]
          | .error e => [.sys_open fname test.conf_openflags false (-1),
                         .stderr (.perror "open" (e : Nat))]) ++
        [.exit code] ∧
      s'.signalled = false ∧
      (∀ s0 : State, (child_branch fname test n env s0).2.signalled = s0.signalled) ∧
      (code = 0 ↔ ∃ m, env.conflict_open = .fd m) ∧
      (code = 1 ↔ ∃ e, env.conflict_open = .error e) := by
  have hflag : ∀ s0 : State, (child_branch fname test n env s0).2.signalled = s0.signalled := by
    intro s0
    cases hconf : env.conflict_open with
    | fd m =>
      have hm : ¬ ((m : Int) < 0) := by omega
      simp [child_branch, open_conflict, sys_open, sys_close, State.log, hconf, hm]
    | error e =>
      cases hp : env.perror_errno <;>
        simp [child_branch, open_conflict, sys_open, sys_close, perror, State.log, hconf, hp]
  cases hconf : env.conflict_open with
  | fd m =>
    refine ⟨0, _, slb_child_opened W fname test env s n m hopen hset hfork hconf, ?_, rfl,
      hflag, ?_, ?_⟩
    · simp
    · simp
    · simp
  | error e =>
    refine ⟨1, _, slb_child_failed W fname test env s n e hopen hset hfork hconf, ?_, rfl,
      hflag, ?_, ?_⟩
    · simp
    · simp
    · simp

theorem child_branch_behaviour_witness :
    ∃ code s', simple_lease_break linuxWait "testfile" ⟨.O_RDONLY, .F_RDLCK, .O_WRONLY, true⟩
        { sample_case true with fork := .child, conflict_open := .error 13 } State.init
          = some (.exit code, s') ∧
      s'.trace = State.init.trace ++
        [.enter ⟨.O_RDONLY, .F_RDLCK, .O_WRONLY, true⟩, .sys_open "testfile" .O_RDONLY true 3,
          .setlease 3 .F_RDLCK 0, .fork 0, .close 3] ++
        [.sys_open "testfile" .O_WRONLY false (-1), .stderr (.perror "open" 13)] ++
        [.exit code] ∧
      s'.signalled = false ∧
      (∀ s0 : State, (child_branch "testfile" ⟨.O_RDONLY, .F_RDLCK, .O_WRONLY, true⟩ 3
        { sample_case true with fork := .child, conflict_open := .error 13 } s0).2.signalled
          = s0.signalled) ∧
      (code = 0 ↔ ∃ m, OpenRes.error 13 = .fd m) ∧
      (code = 1 ↔ ∃ e, OpenRes.error 13 = .error e) :=
  child_branch_behaviour linuxWait "testfile" ⟨.O_RDONLY, .F_RDLCK, .O_WRONLY, true⟩
    { sample_case true with fork := .child, conflict_open := .error 13 } State.init 3 rfl rfl rfl

/-- C9 as stated fails: when the non-blocking wait answers with an error
(here ECHILD) the loop is left at that poll although the flag is false and the
wait did not report that the child has exited, and without sleeping. -/
theorem poll_loop_leaves_on_wait_error :
    ∃ l', poll_loop 100 [⟨[], .error 10⟩] { exited := 0, status := 0, st := State.init }
        = some l' ∧
      l'.st.signalled = false ∧ Poll.child_exited ⟨[], .error 10⟩ = false ∧
      l'.exited = -1 ∧ sleeps l'.st.trace = 0 := by
  exact ⟨_, rfl, rfl, rfl, rfl, rfl⟩

/-- C9, amended: starting with the flag false, the loop is left at the first
poll at which the handler has seen SIGIO or the non-blocking wait returns a
non-zero value (the child's id, or -1 for an error); it has slept exactly once
for each poll before that one; on leaving, the flag is true or `exited` is
non-zero; and over polls at which the flag stays false and the wait returns
zero the loop is never left. -/
theorem poll_loop_leaves_at_first_event (pid : ℕ+) (l : Locals)
    (hf : l.st.signalled = false) :
    (∀ (pre post : List Poll) (p : Poll), (∀ q ∈ pre, q.quiet = true) → p.quiet = false →
      ∃ l', poll_loop pid (pre ++ p :: post) l = some l' ∧
        sleeps l'.st.trace = sleeps l.st.trace + pre.length ∧
        l'.st.signalled = p.signals.contains Signum.SIGIO ∧
        (l'.st.signalled = true ∨ l'.exited ≠ 0) ∧
        (l'.st.signalled = false →
          (p.child_exited = true ∧ l'.exited = ((pid : Nat) : Int)) ∨
          ((∃ e, p.wait = .error e) ∧ l'.exited = -1))) ∧
    (∀ polls : List Poll, (∀ q ∈ polls, q.quiet = true) →
      poll_loop pid polls l = none) := by
  have hp := pid.pos
  have hpid : ((pid : Nat) : Int) ≠ 0 := by omega
  constructor
  · intro pre post p hpre hq
    refine ⟨leave_at pid p
      { exited := if pre = [] then l.exited else 0, status := l.status,
        st := { l.st with trace := l.st.trace ++ quiet_trace pid pre.length } }, ?_, ?_⟩
    · rw [poll_loop_quiet_run pid pre (p :: post) l hpre hf]
      exact poll_loop_leave pid p post _ hq hf hpid
    · obtain ⟨sigs, w⟩ := p
      by_cases hs : Signum.SIGIO ∈ sigs
      · simp [leave_at, hs, sleeps_append, sleeps_quiet_trace]
      · cases w with
        | running => simp [Poll.quiet, hs] at hq
        | reaped st =>
          simp [leave_at, hs, sleeps_append, sleeps_quiet_trace, sleeps_waitpid, hf, hpid,
            Poll.child_exited]
        | error e =>
          simp [leave_at, hs, sleeps_append, sleeps_quiet_trace, sleeps_waitpid, hf,
            Poll.child_exited]
  · intro polls hall
    have := poll_loop_quiet_run pid polls [] l hall hf
    simpa [poll_loop] using this

theorem poll_loop_leaves_at_first_event_witness :
    (∃ l', poll_loop 100 ([⟨[], .running⟩, ⟨[.other 17], .running⟩] ++
          (⟨[Signum.SIGIO], .running⟩ : Poll) :: [⟨[], .reaped 0⟩])
          { exited := 7, status := 9, st := State.init } = some l' ∧
        sleeps l'.st.trace = sleeps State.init.trace + 2 ∧
        l'.st.signalled = [Signum.SIGIO].contains Signum.SIGIO ∧
        (l'.st.signalled = true ∨ l'.exited ≠ 0) ∧
        (l'.st.signalled = false →
          (Poll.child_exited ⟨[Signum.SIGIO], .running⟩ = true ∧ l'.exited = 100) ∨
          ((∃ e, WaitRes.running = .error e) ∧ l'.exited = -1))) ∧
    poll_loop 100 [⟨[], .running⟩, ⟨[.other 17], .running⟩]
      { exited := 7, status := 9, st := State.init } = none :=
  ⟨(poll_loop_leaves_at_first_event 100 { exited := 7, status := 9, st := State.init } rfl).1
      [⟨[], .running⟩, ⟨[.other 17], .running⟩] [⟨[], .reaped 0⟩] ⟨[Signum.SIGIO], .running⟩
      (by decide) (by decide),
    (poll_loop_leaves_at_first_event 100 { exited := 7, status := 9, st := State.init } rfl).2
      [⟨[], .running⟩, ⟨[.other 17], .running⟩] (by decide)⟩

/-- C8 fails on the code: when SIGIO is handled before the loop is reached,
the loop body never runs, `exited` still holds what was on the stack, and with
a non-zero value there the blocking wait is skipped.  No wait is ever called,
the child stays unreaped, and the verdict is computed from the stack content of
`status`: here the case returns 0 although a wait would have reported exit
code 1.  With zero in `exited` the same run waits and returns 1.  The wait is
skipped in the same way when the non-blocking wait answers with an error. -/
theorem early_signal_skips_wait :
    simple_lease_break linuxWait "testfile" ⟨.O_RDONLY, .F_RDLCK, .O_WRONLY, true⟩
        early_signal_case State.init =
      some (.ret 0,
        { signalled := true, errno := 0, fds := [], children := [100],
          trace := [.enter ⟨.O_RDONLY, .F_RDLCK, .O_WRONLY, true⟩,
                    .sys_open "testfile" .O_RDONLY true 3, .setlease 3 .F_RDLCK 0, .fork 100,
                    .setlease 3 .F_UNLCK 0, .close 3] }) ∧
    simple_lease_break linuxWait "testfile" ⟨.O_RDONLY, .F_RDLCK, .O_WRONLY, true⟩
        { early_signal_case with exited0 := 0 } State.init =
      some (.ret 1,
        { signalled := true, errno := 0, fds := [], children := [],
          trace := [.enter ⟨.O_RDONLY, .F_RDLCK, .O_WRONLY, true⟩,
                    .sys_open "testfile" .O_RDONLY true 3, .setlease 3 .F_RDLCK 0, .fork 100,
                    .setlease 3 .F_UNLCK 0, .close 3, .waitpid 100 false 100] }) ∧
    simple_lease_break linuxWait "testfile" ⟨.O_RDONLY, .F_RDLCK, .O_RDONLY, false⟩
        { early_signal_case with exited0 := 0, polls := [⟨[], .error 4⟩] } State.init =
      some (.ret 0,
        { signalled := false, errno := 4, fds := [], children := [100],
          trace := [.enter ⟨.O_RDONLY, .F_RDLCK, .O_RDONLY, false⟩,
                    .sys_open "testfile" .O_RDONLY true 3, .setlease 3 .F_RDLCK 0, .fork 100,
                    .waitpid 100 true (-1), .setlease 3 .F_UNLCK 0, .close 3] }) := by
  decide

/-- C5 as stated fails: when the lease request is rejected (here with EAGAIN)
after the open succeeded, `simple_lease_break` returns with the descriptor it
opened still open. -/
theorem rejected_lease_leaves_descriptor_open :
    State.init.fds = [] ∧
    (simple_lease_break linuxWait "testfile" ⟨.O_RDONLY, .F_RDLCK, .O_RDONLY, false⟩
        { sample_case false with lease_set := .rejected 11 } State.init).map
      (fun r => (r.1, r.2.fds)) = some (.ret (-11), [3]) := by
  decide

/-- C5, amended: a run of one case leaves the set of open descriptors of the
parent as it found it when the lease-holder open fails and whenever the parent
branch completes, and the child has closed both the inherited and the
conflicting descriptor when it exits.  When the lease request is rejected
after the open succeeded, or the fork fails, the function returns with the
lease-holder descriptor still open.  The child is reaped when the non-blocking
wait that ended the loop collected it, or when the loop ended on the flag after
at least one earlier poll and the blocking wait collected it. -/
theorem simple_lease_break_resources (W : WaitMacros) (fname : String) (test : leasetest)
    (env : CaseEnv) (s : State) :
    (∀ e, env.lease_open = .error e →
      ∃ s', simple_lease_break W fname test env s = some (.ret (-(((errno_left e env.perror_errno : Errno) : Nat) : Int)), s') ∧
        s'.fds = s.fds ∧ s'.children = s.children) ∧
    (∀ n e, env.lease_open = .fd n → env.lease_set = .rejected e →
      ∃ s', simple_lease_break W fname test env s = some (.ret (-(((errno_left e env.perror_errno : Errno) : Nat) : Int)), s') ∧
        s'.fds = (n : Int) :: s.fds ∧ s'.children = s.children) ∧
    (∀ n e, env.lease_open = .fd n → env.lease_set = .granted → env.fork = .error e →
      ∃ s', simple_lease_break W fname test env s = some (.ret (-(((e : Nat) : Int))), s') ∧
        s'.fds = (n : Int) :: s.fds ∧ s'.children = s.children) ∧
    (∀ n, env.lease_open = .fd n → env.lease_set = .granted → env.fork = .child →
      ∃ code s', simple_lease_break W fname test env s = some (.exit code, s') ∧
        s'.fds = s.fds ∧ s'.children = []) ∧
    (∀ n pid, env.lease_open = .fd n → env.lease_set = .granted → env.fork = .parent pid →
      (∃ p ∈ env.polls, p.quiet = false) →
      ∃ r s', simple_lease_break W fname test env s = some (.ret r, s') ∧ s'.fds = s.fds) ∧
    (∀ n pid pre p post, env.lease_open = .fd n → env.lease_set = .granted →
      env.fork = .parent pid → env.polls = pre ++ p :: post → (∀ q ∈ pre, q.quiet = true) →
      p.quiet = false →
      ((Signum.SIGIO ∉ p.signals ∧ p.child_exited = true) ∨
        (Signum.SIGIO ∈ p.signals ∧ pre ≠ [] ∧ ∃ st, env.final_wait = .reaped st)) →
      ∃ r s', simple_lease_break W fname test env s = some (.ret r, s') ∧ s'.fds = s.fds ∧
        s'.children = s.children) := by
  refine ⟨?_, ?_, ?_, ?_, ?_, ?_⟩
  · intro e hopen
    exact ⟨_, slb_open_error W fname test env s e hopen, rfl, rfl⟩
  · intro n e hopen hset
    exact ⟨_, slb_rejected W fname test env s n e hopen hset, rfl, rfl⟩
  · intro n e hopen hset hfork
    exact ⟨_, slb_fork_error W fname test env s n e hopen hset hfork, rfl, rfl⟩
  · intro n hopen hset hfork
    cases hconf : env.conflict_open with
    | fd m => exact ⟨_, _, slb_child_opened W fname test env s n m hopen hset hfork hconf, rfl, rfl⟩
    | error e =>
      exact ⟨_, _, slb_child_failed W fname test env s n e hopen hset hfork hconf, rfl, rfl⟩
  · intro n pid hopen hset hfork hleave
    have hp := pid.pos
    have hpid : ((pid : Nat) : Int) ≠ 0 := by omega
    obtain ⟨l, hl⟩ := poll_loop_total pid env.polls
      { exited := env.exited0, status := env.status0, st := parent_state fname test n pid s }
      hpid hleave
    refine ⟨_, _, by rw [slb_parent W fname test env s n pid hopen hset hfork, hl]; rfl, ?_⟩
    rw [deliver_eq]
    simp only [(parent_wait_frame n pid env l).2.1, (poll_loop_frame _ _ _ _ hl).1]
    simp [parent_state]
  · intro n pid pre p post hopen hset hfork hpolls hpre hq hcol
    have hp := pid.pos
    have hpid : ((pid : Nat) : Int) ≠ 0 := by omega
    have hl : poll_loop pid env.polls
        { exited := env.exited0, status := env.status0, st := parent_state fname test n pid s }
        = some (leave_at pid p
            { exited := if pre = [] then env.exited0 else 0, status := env.status0,
              st := { parent_state fname test n pid s with
                trace := (parent_state fname test n pid s).trace ++ quiet_trace pid pre.length } }) := by
      rw [hpolls, poll_loop_quiet_run pid pre (p :: post) _ hpre rfl]
      exact poll_loop_leave pid p post _ hq rfl hpid
    refine ⟨_, _, by rw [slb_parent W fname test env s n pid hopen hset hfork, hl]; rfl, ?_, ?_⟩
    · rw [deliver_eq]
      simp only [(parent_wait_frame n pid env _).2.1, (poll_loop_frame _ _ _ _ hl).1]
      simp [parent_state]
    · rw [deliver_eq]
      simp only [parent_wait_children]
      obtain ⟨sigs, w⟩ := p
      rcases hcol with ⟨h1, h2⟩ | ⟨h1, h2, st, h3⟩
      · cases w with
        | running => simp [Poll.child_exited] at h2
        | error e => simp [Poll.child_exited] at h2
        | reaped st =>
          have h1' : Signum.SIGIO ∉ sigs := h1
          simp [leave_at, h1', hpid, parent_state]
      · have h1' : Signum.SIGIO ∈ sigs := h1
        simp [leave_at, h1', h2, h3, parent_state]

theorem simple_lease_break_resources_witness :
    (∃ s', simple_lease_break linuxWait "testfile" ⟨.O_RDONLY, .F_RDLCK, .O_RDONLY, false⟩
        { sample_case false with lease_open := .error 13 } State.init
          = some (.ret (-(((13 : ℕ+) : Nat) : Int)), s') ∧
        s'.fds = State.init.fds ∧ s'.children = State.init.children) ∧
    (∃ s', simple_lease_break linuxWait "testfile" ⟨.O_RDONLY, .F_RDLCK, .O_RDONLY, false⟩
        { sample_case false with lease_set := .rejected 11 } State.init
          = some (.ret (-(((11 : ℕ+) : Nat) : Int)), s') ∧
        s'.fds = ((3 : Nat) : Int) :: State.init.fds ∧ s'.children = State.init.children) ∧
    (∃ s', simple_lease_break linuxWait "testfile" ⟨.O_RDONLY, .F_RDLCK, .O_RDONLY, false⟩
        { sample_case false with fork := .error 12 } State.init
          = some (.ret (-(((12 : ℕ+) : Nat) : Int)), s') ∧
        s'.fds = ((3 : Nat) : Int) :: State.init.fds ∧ s'.children = State.init.children) ∧
    (∃ code s', simple_lease_break linuxWait "testfile" ⟨.O_RDONLY, .F_RDLCK, .O_RDONLY, false⟩
        { sample_case false with fork := .child } State.init = some (.exit code, s') ∧
        s'.fds = State.init.fds ∧ s'.children = []) ∧
    (∃ r s', simple_lease_break linuxWait "testfile" ⟨.O_RDONLY, .F_RDLCK, .O_RDONLY, false⟩
        (sample_case false) State.init = some (.ret r, s') ∧ s'.fds = State.init.fds) ∧
    (∃ r s', simple_lease_break linuxWait "testfile" ⟨.O_RDONLY, .F_RDLCK, .O_WRONLY, true⟩
        (sample_case true) State.init = some (.ret r, s') ∧ s'.fds = State.init.fds ∧
        s'.children = State.init.children) :=
  ⟨(simple_lease_break_resources linuxWait "testfile" ⟨.O_RDONLY, .F_RDLCK, .O_RDONLY, false⟩
      { sample_case false with lease_open := .error 13 } State.init).1 13 rfl,
   (simple_lease_break_resources linuxWait "testfile" ⟨.O_RDONLY, .F_RDLCK, .O_RDONLY, false⟩
      { sample_case false with lease_set := .rejected 11 } State.init).2.1 3 11 rfl rfl,
   (simple_lease_break_resources linuxWait "testfile" ⟨.O_RDONLY, .F_RDLCK, .O_RDONLY, false⟩
      { sample_case false with fork := .error 12 } State.init).2.2.1 3 12 rfl rfl rfl,
   (simple_lease_break_resources linuxWait "testfile" ⟨.O_RDONLY, .F_RDLCK, .O_RDONLY, false⟩
      { sample_case false with fork := .child } State.init).2.2.2.1 3 rfl rfl rfl,
   (simple_lease_break_resources linuxWait "testfile" ⟨.O_RDONLY, .F_RDLCK, .O_RDONLY, false⟩
      (sample_case false) State.init).2.2.2.2.1 3 100 rfl rfl rfl (by decide),
   (simple_lease_break_resources linuxWait "testfile" ⟨.O_RDONLY, .F_RDLCK, .O_WRONLY, true⟩
      (sample_case true) State.init).2.2.2.2.2 3 100 [⟨[], .running⟩] ⟨[Signum.SIGIO], .running⟩ []
      rfl rfl rfl rfl (by decide) (by decide)
      (Or.inr ⟨by decide, by decide, 0, rfl⟩)⟩

/-- C2: with a file name given and the handler installed, `main` runs the
table in order and stops at the first case whose result is not zero: exactly
the entries up to that one are entered, one "Test failure" line carrying that
entry is written, and exit(1) is the last thing the process does.  If every
case returns zero, all four entries are entered in order, nothing is written
to the diagnostic stream, and `main` returns 0. -/
theorem main_stops_at_first_failure (W : WaitMacros) (env : Env) (hargc : 2 ≤ env.argc)
    (hsig : env.sigaction = .ok) :
    (∀ i t r, testcase[i]? = some t →
      (∀ j, j < i → case_result W env j = some (.ret 0)) →
      case_result W env i = some (.ret r) → r ≠ 0 →
      ∃ s, main W env = some (.exited 1, s) ∧ entered s.trace = testcase.take (i + 1) ∧
        failure_reports s.trace = [t] ∧ s.trace.getLast? = some (.exit 1)) ∧
    ((∀ j, j < testcase.length → case_result W env j = some (.ret 0)) →
      ∃ s, main W env = some (.returned 0, s) ∧ entered s.trace = testcase ∧
        stderr_lines s.trace = []) := by
  constructor
  · intro i t r ht hprev hi hr
    exact main_fails_at W env hargc hsig i t r ht hprev hi hr
  · intro hall
    rw [main_runs_tests W env hargc hsig]
    have h1 : ∀ k t, testcase[k]? = some t →
        (simple_lease_break W env.fname t (env.cases (0 + k)) State.init).map Prod.fst
          = some (.ret 0) := by
      intro k t hk
      rw [Nat.zero_add, ← case_result_some W env k t hk]
      apply hall
      have := List.getElem?_eq_some_iff.1 hk
      exact this.1
    obtain ⟨s, hs, he, hd⟩ := run_tests_pass W env.fname env.cases testcase 0
      (State.init.log (.sigaction Signum.SIGIO 0)) h1
    refine ⟨s, hs, ?_, ?_⟩
    · rw [he]; simp [State.log, State.init, entered]
    · rw [hd]; simp [State.log, State.init, stderr_lines]

theorem main_stops_at_first_failure_witness :
    (∃ s, main linuxWait silent_env = some (.exited 1, s) ∧
        entered s.trace = testcase.take (1 + 1) ∧
        failure_reports s.trace = [⟨.O_RDONLY, .F_RDLCK, .O_WRONLY, true⟩] ∧
        s.trace.getLast? = some (.exit 1)) ∧
    (∃ s, main linuxWait sample_env = some (.returned 0, s) ∧ entered s.trace = testcase ∧
        stderr_lines s.trace = []) :=
  ⟨(main_stops_at_first_failure linuxWait silent_env (by decide) rfl).1 1
      ⟨.O_RDONLY, .F_RDLCK, .O_WRONLY, true⟩ 1 rfl (by decide) (by decide) (by decide),
   (main_stops_at_first_failure linuxWait sample_env (by decide) rfl).2 (by decide)⟩

/-- C6 fails on the code: `setlease` reads errno after perror has run, so
what it returns is the negative of whatever perror left there.  With the
lease-holder open failing with EACCES (13) and perror leaving EINVAL (22), as
the C library does on a diagnostic stream that is a pipe or a file opened for
writing only, `simple_lease_break` returns -22, not -13; with the lease request
rejected with EAGAIN (11) it returns -22, not -11.  Where perror leaves errno
alone the same runs return -13 and -11, and the fork path, which has no call
between the failure and the read of errno, returns -12 for ENOMEM either way.
The rest of the claim holds in these runs: no child is forked, no lease is
requested after a failed open, and `main` exits with status 1 after entering
the failing case and none after it. -/
theorem perror_clobbers_returned_errno :
    simple_lease_break linuxWait "testfile" ⟨.O_RDONLY, .F_RDLCK, .O_WRONLY, true⟩
        clobbered_open_case State.init =
      some (.ret (-22),
        { signalled := false, errno := 22, fds := [], children := [],
          trace := [.enter ⟨.O_RDONLY, .F_RDLCK, .O_WRONLY, true⟩,
                    .sys_open "testfile" .O_RDONLY true (-1),
                    .stderr (.perror "open" 13)] }) ∧
    simple_lease_break linuxWait "testfile" ⟨.O_RDONLY, .F_RDLCK, .O_WRONLY, true⟩
        clobbered_lease_case State.init =
      some (.ret (-22),
        { signalled := false, errno := 22, fds := [3], children := [],
          trace := [.enter ⟨.O_RDONLY, .F_RDLCK, .O_WRONLY, true⟩,
                    .sys_open "testfile" .O_RDONLY true 3, .setlease 3 .F_RDLCK (-1),
                    .stderr (.perror "setlease" 11)] }) ∧
    (simple_lease_break linuxWait "testfile" ⟨.O_RDONLY, .F_RDLCK, .O_WRONLY, true⟩
        { clobbered_open_case with perror_errno := none } State.init).map Prod.fst
      = some (.ret (-13)) ∧
    (simple_lease_break linuxWait "testfile" ⟨.O_RDONLY, .F_RDLCK, .O_WRONLY, true⟩
        { clobbered_lease_case with perror_errno := none } State.init).map Prod.fst
      = some (.ret (-11)) ∧
    (simple_lease_break linuxWait "testfile" ⟨.O_RDONLY, .F_RDLCK, .O_WRONLY, true⟩
        { sample_case true with fork := .error 12, perror_errno := some 22 } State.init).map
        Prod.fst
      = some (.ret (-12)) ∧
    (main linuxWait
        { sample_env with cases := fun i => if i = 1 then clobbered_open_case
                                            else sample_case (i != 0) }).map
        (fun r => (r.1, entered r.2.trace, failure_reports r.2.trace))
      = some (.exited 1, testcase.take 2, [⟨.O_RDONLY, .F_RDLCK, .O_WRONLY, true⟩]) := by
  decide

/-- C3 as stated fails: when sigaction fails (here with EINVAL) `main`
returns -1, which is neither 0 nor 1. -/
theorem main_returns_minus_one_on_sigaction_failure :
    (main linuxWait { sample_env with sigaction := .error 22 }).map (fun r => r.1) =
      some (.returned (-1)) ∧
    (Outcome.returned (-1)).value ≠ 0 ∧ (Outcome.returned (-1)).value ≠ 1 := by
  decide

/-- C3, amended: the value `main` returns or passes to exit is 0, 1 or -1,
and it is -1 exactly when a file name was given and installing the handler
failed; in that case `main` returns before entering any case, having only
called sigaction and reported the error.  A negative value returned by
`simple_lease_break` is never the exit value: `main` turns it into exit(1). -/
theorem main_exit_value (W : WaitMacros) (env : Env) :
    (∀ o s, main W env = some (o, s) →
      (o.value = 0 ∨ o.value = 1 ∨ o.value = -1) ∧
      (o.value = -1 ↔ 2 ≤ env.argc ∧ ∃ e, env.sigaction = .error e)) ∧
    (∀ e, 2 ≤ env.argc → env.sigaction = .error e →
      main W env = some (.returned (-1),
        { State.init with errno := (((errno_left e env.perror_errno : Errno) : Nat) : Int),
                          trace := [.sigaction Signum.SIGIO (-1),
                                    .stderr (.perror "sigaction" (e : Nat))] })) ∧
    (∀ i t r, 2 ≤ env.argc → env.sigaction = .ok → testcase[i]? = some t →
      (∀ j, j < i → case_result W env j = some (.ret 0)) →
      case_result W env i = some (.ret r) → r < 0 →
      ∃ s, main W env = some (.exited 1, s)) := by
  refine ⟨?_, ?_, ?_⟩
  · intro o s h
    by_cases hargc : env.argc < 2
    · simp only [main, hargc, if_true, Option.some.injEq, Prod.mk.injEq] at h
      obtain ⟨ho, _⟩ := h
      subst ho
      refine ⟨Or.inr (Or.inl rfl), fun h1 => ?_, fun h1 => ?_⟩
      · exact absurd h1 (by decide)
      · omega
    · cases hsig : env.sigaction with
      | ok =>
        rw [main_runs_tests W env (by omega) hsig] at h
        have hv := run_tests_value W env.fname env.cases testcase 0 _ s o h
        refine ⟨by omega, fun h1 => ?_, fun h1 => ?_⟩
        · omega
        · obtain ⟨_, e, he⟩ := h1
          cases he
      | error e =>
        have hm : main W env = some (.returned (-1),
            perror "sigaction" env.perror_errno
              (sys_sigaction Signum.SIGIO env.sigaction State.init).2) := by
          simp [main, hargc, hsig, sys_sigaction]
        rw [hm] at h
        simp only [Option.some.injEq, Prod.mk.injEq] at h
        obtain ⟨ho, _⟩ := h
        subst ho
        exact ⟨Or.inr (Or.inr rfl), fun _ => ⟨by omega, e, rfl⟩, fun _ => rfl⟩
  · intro e hargc hsig
    have h : ¬ (env.argc < 2) := by omega
    cases hp : env.perror_errno <;>
      simp [main, h, hsig, sys_sigaction, perror, State.log, State.init, hp, errno_left]
  · intro i t r hargc hsig ht hprev hi hr
    obtain ⟨s, hs, _⟩ := main_fails_at W env hargc hsig i t r ht hprev hi (by omega)
    exact ⟨s, hs⟩

theorem main_exit_value_witness :
    ((((Outcome.returned 1).value = 0 ∨ (Outcome.returned 1).value = 1 ∨
          (Outcome.returned 1).value = -1) ∧
        ((Outcome.returned 1).value = -1 ↔
          2 ≤ ({ sample_env with argc := 1 } : Env).argc ∧
            ∃ e, ({ sample_env with argc := 1 } : Env).sigaction = .error e))) ∧
    main linuxWait { sample_env with sigaction := .error 22 } =
      some (.returned (-1),
        { State.init with errno := (((22 : ℕ+) : Nat) : Int),
                          trace := [.sigaction Signum.SIGIO (-1),
                                    .stderr (.perror "sigaction" (((22 : ℕ+) : Nat) : Int))] }) ∧
    (∃ s, main linuxWait denied_env = some (.exited 1, s)) :=
  ⟨(main_exit_value linuxWait { sample_env with argc := 1 }).1 (.returned 1)
      (usage State.init) (by decide),
   (main_exit_value linuxWait { sample_env with sigaction := .error 22 }).2.1 22
      (by decide) rfl,
   (main_exit_value linuxWait denied_env).2.2 1 ⟨.O_RDONLY, .F_RDLCK, .O_WRONLY, true⟩ (-13)
      (by decide) rfl rfl (by decide) (by decide) (by decide)⟩

end TSetlease
